import Mathlib

/-!
Shallow embedding of the core of the `swaycycle` tool (TLINDEN/swaycycle):
the sway tree node model, the visibility resolver (`processJSON` /
`recurseNodes`), the selector (`findNextWindow` / `findPrevWindow`), the node
kind discriminator (`istype`) and the focus command, translated from the Go
source.  The IPC frame codec, which lives in the external `i3ipc` library, is
modelled from the specification.
-/

namespace Swaycycle

/-- One node of the sway scene-graph tree, as decoded from the JSON payload.
Mirrors the Go struct `Node` (fields `Id`, `Nodetype`/`Type`, `Name`, `Nodes`,
`FloatingNodes`, `Focused`, `Window`, `X11Window` (json `app_id`),
`Current_workspace`). -/
structure Node where
  id : Int
  nodetype : String
  name : String
  nodes : List Node
  floatingNodes : List Node
  focused : Bool
  window : Int
  x11window : String
  currentWorkspace : String
deriving Repr

/-- Go constant `root = iota + 1`. -/
def root : Nat := 1
/-- Go constant `output`. -/
def output : Nat := 2
/-- Go constant `workspace`. -/
def workspace : Nat := 3
/-- Go constant `con`. -/
def con : Nat := 4
/-- Go constant `floating`. -/
def floating : Nat := 5

/-- Go `istype`: discriminate a node's kind by comparing its string type tag
against the integer enumeration. -/
def istype (nd : Node) (which : Nat) : Bool :=
  match nd.nodetype with
  | "root" => which == root
  | "output" => which == output
  | "workspace" => which == workspace
  | "con" => which == con
  | "floating_con" => which == floating
  | _ => false

/-- The in-place merge `node.Nodes = append(node.Nodes, node.FloatingNodes...)`
performed by `recurseNodes` on each node it visits: the node with its floating
children appended to its ordinary children. -/
def mergeNode (n : Node) : Node :=
  { n with nodes := n.nodes ++ n.floatingNodes }

/-- Total number of nodes in a forest (termination measure for the
traversal). -/
def listTsize : List Node → Nat
  | [] => 0
  | Node.mk _ _ _ ns fs _ _ _ _ :: rest =>
      1 + listTsize ns + listTsize fs + listTsize rest

theorem listTsize_cons (n : Node) (rest : List Node) :
    listTsize (n :: rest) = 1 + listTsize n.nodes + listTsize n.floatingNodes + listTsize rest := by
  cases n
  simp [listTsize]

theorem listTsize_append (a b : List Node) :
    listTsize (a ++ b) = listTsize a + listTsize b := by
  induction a with
  | nil => simp [listTsize]
  | cons n rest ih =>
      cases n
      simp [listTsize, ih]
      omega

/-- Go `recurseNodes`: iterate over the given node list extracting visible
windows.  The process-global accumulator `Visibles` and the process-global
`CurrentWorkspace` are threaded explicitly (`vis`, `cw`).  Each visited node
first has its floating children merged into its child list (`mergeNode`); a
workspace node is descended into, abandoning the rest of the list, exactly
when its name is the current workspace (the Go `return`), and skipped
otherwise; a con/floating-con node with a positive window handle or a
non-empty app id is appended to the accumulator; any other node is descended
into and iteration continues. -/
def recurseNodes (cw : String) (vis : List Node) (l : List Node) : List Node :=
  match l with
  | [] => vis
  | node :: rest =>
    if istype (mergeNode node) workspace then
      if (mergeNode node).name = cw then
        recurseNodes cw vis (mergeNode node).nodes
      else
        recurseNodes cw vis rest
    else if (istype (mergeNode node) con || istype (mergeNode node) floating)
        && (decide ((mergeNode node).window > 0) || (mergeNode node).x11window != "") then
      recurseNodes cw (vis ++ [mergeNode node]) rest
    else
      recurseNodes cw (recurseNodes cw vis (mergeNode node).nodes) rest
termination_by listTsize l
decreasing_by
  all_goals simp [mergeNode, listTsize_cons, listTsize_append]
  all_goals omega

theorem recurseNodes_nil (cw : String) (vis : List Node) : recurseNodes cw vis [] = vis := by
  rw [recurseNodes]

theorem recurseNodes_cons (cw : String) (vis : List Node) (node : Node) (rest : List Node) :
    recurseNodes cw vis (node :: rest) =
      if istype (mergeNode node) workspace then
        if (mergeNode node).name = cw then recurseNodes cw vis (mergeNode node).nodes
        else recurseNodes cw vis rest
      else if (istype (mergeNode node) con || istype (mergeNode node) floating)
          && (decide ((mergeNode node).window > 0) || (mergeNode node).x11window != "") then
        recurseNodes cw (vis ++ [mergeNode node]) rest
      else recurseNodes cw (recurseNodes cw vis (mergeNode node).nodes) rest := by
  rw [recurseNodes]

/-- The loop body of Go `processJSON`: scan the root's immediate children for
the first one whose `Current_workspace` is non-empty, record that name as the
current workspace, collect the visible windows of that child's subtree, and
`break`.  Returns the pair (recorded current workspace, visible list); the
process-global initial state is `("", [])`. -/
def processLoop (l : List Node) : String × List Node :=
  match l with
  | [] => ("", [])
  | node :: rest =>
    if node.currentWorkspace ≠ "" then
      (node.currentWorkspace, recurseNodes node.currentWorkspace [] node.nodes)
    else
      processLoop rest

/-- Go `processJSON` (tree-level part, shared by all variants): reject a tree
whose root is not of kind `root` and has no children, otherwise scan for the
output holding the current workspace and extract its visible windows. -/
def processJSON (sway : Node) : Except String (String × List Node) :=
  if (!istype sway root) && sway.nodes.isEmpty then
    Except.error "Invalid or empty JSON structure"
  else
    Except.ok (processLoop sway.nodes)

/-- One invocation of the visibility resolver: a fresh process parses the
unchanged payload into `sway` and runs `processJSON` from the initial global
state, yielding the ordered visible-window list. -/
def resolverRun (sway : Node) : Except String (List Node) :=
  (processJSON sway).map (fun r => r.2)

/-- Scanning loop of Go `findNextWindow`: `first` is `Visibles[0].Id`, `seen`
the `seenfocused` flag. -/
def findNextAux (first : Int) (seen : Bool) (l : List Node) : Int :=
  match l with
  | [] => if seen then first else 0
  | node :: rest =>
    if node.focused then findNextAux first true rest
    else if seen then node.id
    else findNextAux first seen rest

/-- Go `findNextWindow`: the id of the entry following the focused one, the
first entry's id when the focused one is last, 0 when none is focused or the
list is empty. -/
def findNextWindow (vis : List Node) : Int :=
  match vis with
  | [] => 0
  | v0 :: _ => findNextAux v0.id false vis

/-- Scanning loop of Go `findPrevWindow`: `prev` tracks the previous entry's
id, pre-seeded with the last entry's id. -/
def findPrevAux (prev : Int) (l : List Node) : Int :=
  match l with
  | [] => 0
  | node :: rest => if node.focused then prev else findPrevAux node.id rest

/-- Go `findPrevWindow`: the id of the entry preceding the focused one, the
last entry's id when the focused one is first, 0 when none is focused or the
list is empty. -/
def findPrevWindow (vis : List Node) : Int :=
  match vis.getLast? with
  | none => 0
  | some last => findPrevAux last.id vis

/-- What one invocation of the program does after the tree has been fetched
(the tail of Go `main`). -/
inductive Outcome where
  | fatal (msg : String)
  | exitSuccessNoAction
  | switched (id : Int)
  | computedOnly (id : Int)
deriving Repr, DecidableEq

/-- The decision logic at the end of Go `main`: a resolver error is fatal; an
empty visible list exits successfully with no action; otherwise the selector
picks an id and focus is switched exactly when the id is positive and
`--no-switch` was not given. -/
def mainRun (previous notswitch : Bool) (sway : Node) : Outcome :=
  match processJSON sway with
  | Except.error e => Outcome.fatal e
  | Except.ok r =>
    if r.2.isEmpty then Outcome.exitSuccessNoAction
    else
      let id := if previous then findPrevWindow r.2 else findNextWindow r.2
      if id > 0 && !notswitch then Outcome.switched id
      else Outcome.computedOnly id

/-- The observable content of a visible-list entry: the spec's Visible Window
List is an "ordered sequence of (id, focused) pairs". -/
def observe (n : Node) : Int × Bool :=
  (n.id, n.focused)

/-- Spec-words collector (refinement comparison for the resolver): the
window-bearing nodes of a forest that are not nested inside another
window-bearing node, in depth-first, children-before-floating-children,
left-to-right order.  A window-bearing node is one of kind con or
floating-con carrying a positive window handle or a non-empty compatibility
id; the traversal appends it and does not descend into it, and descends into
every other node.  (Processing `ns ++ fs` element-by-element equals processing
`ns` then `fs`, which is how the recursion is phrased here.) -/
def specVisibleWindows : List Node → List Node
  | [] => []
  | n :: rest =>
    if (istype n con || istype n floating)
        && (decide (n.window > 0) || n.x11window != "") then
      n :: specVisibleWindows rest
    else
      (specVisibleWindows n.nodes ++ specVisibleWindows n.floatingNodes)
        ++ specVisibleWindows rest
termination_by l => listTsize l
decreasing_by
  all_goals simp [listTsize_cons]
  all_goals omega

/-- Claim-words collector for the C1 counterexample: ALL window-bearing nodes
under a forest, including those nested inside other window-bearing nodes, in
depth-first, children-before-floating-children, left-to-right order. -/
def specAllWindows : List Node → List Node
  | [] => []
  | n :: rest =>
    (if (istype n con || istype n floating)
        && (decide (n.window > 0) || n.x11window != "") then [n] else [])
      ++ (specAllWindows n.nodes ++ specAllWindows n.floatingNodes)
      ++ specAllWindows rest
termination_by l => listTsize l
decreasing_by
  all_goals simp [listTsize_cons]
  all_goals omega

/-- The ids of every node of a forest, subtrees included. -/
def subtreeIds : List Node → List Int
  | [] => []
  | n :: rest =>
    n.id :: ((subtreeIds n.nodes ++ subtreeIds n.floatingNodes) ++ subtreeIds rest)
termination_by l => listTsize l
decreasing_by
  all_goals simp [listTsize_cons]
  all_goals omega

/-- No node of the forest, subtrees included, is of kind workspace. -/
def noWsForest : List Node → Bool
  | [] => true
  | n :: rest =>
    (n.nodetype != "workspace") && noWsForest n.nodes && noWsForest n.floatingNodes
      && noWsForest rest
termination_by l => listTsize l
decreasing_by
  all_goals simp [listTsize_cons]
  all_goals omega

/-- Go constant `IPC_HEADER_SIZE = 14`. -/
def IPC_HEADER_SIZE : Nat := 14
/-- Go constant `IPC_MAGIC = "i3-ipc"`. -/
def IPC_MAGIC : String := "i3-ipc"
/-- Go constant `IPC_GET_TREE = 4`. -/
def IPC_GET_TREE : Nat := 4
/-- Go constant `IPC_RUN_COMMAND = 0`. -/
def IPC_RUN_COMMAND : Nat := 0

/-- The bytes of an ASCII string (every command string here is ASCII, where
UTF-8 bytes and code points coincide). -/
def strBytes (s : String) : List Nat :=
  s.data.map Char.toNat

/-- Modelled from the spec: a 4-byte little-endian encoding of an unsigned
32-bit length or message-type field of the IPC header. -/
def le32 (n : Nat) : List Nat :=
  [n % 256, n / 256 % 256, n / 65536 % 256, n / 16777216 % 256]

/-- Modelled from the spec: encode one IPC frame, missing from src/ (it lives
in the external i3ipc library): the 6 magic bytes `"i3-ipc"`, the 4-byte
little-endian payload length, the 4-byte little-endian message type, then the
payload bytes. -/
def encodeFrame (msgtype : Nat) (payload : List Nat) : List Nat :=
  strBytes IPC_MAGIC ++ le32 payload.length ++ le32 msgtype ++ payload

/-- Modelled from the spec: decode one IPC frame, missing from src/ (it lives
in the external i3ipc library): read exactly the 14 header bytes (6 magic, 4
little-endian length, 4 little-endian message type), fail on a bad magic or a
zero declared payload length, then read exactly that many payload bytes,
failing on a short read. -/
def decodeFrame (frame : List Nat) : Except String (List Nat) :=
  match frame with
  | m0 :: m1 :: m2 :: m3 :: m4 :: m5 :: l0 :: l1 :: l2 :: l3 :: _ :: _ :: _ :: _ :: rest =>
    if [m0, m1, m2, m3, m4, m5] ≠ strBytes IPC_MAGIC then
      Except.error "ProtocolError"
    else if l0 + 256 * l1 + 65536 * l2 + 16777216 * l3 = 0 then
      Except.error "ProtocolError"
    else if (rest.take (l0 + 256 * l1 + 65536 * l2 + 16777216 * l3)).length
        ≠ l0 + 256 * l1 + 65536 * l2 + 16777216 * l3 then
      Except.error "ReadError"
    else
      Except.ok (rest.take (l0 + 256 * l1 + 65536 * l2 + 16777216 * l3))
  | _ => Except.error "ProtocolError"

/-- The focus command string sent for window id `n`, as the Go source builds
it (`fmt.Sprintf("[con_id=%d]", id)` followed by the verb `focus`; the i3ipc
library call `RunContainerCommand(id, "focus")`, missing from src/, is
modelled from the spec's command string format `"[con_id=<integer>] focus"`). -/
def focusCommand (id : Int) : String :=
  "[con_id=" ++ toString id ++ "] focus"

/-- A throwaway default node for `List.getD`. -/
def dNode : Node :=
  ⟨0, "", "", [], [], false, 0, "", ""⟩

@[simp] theorem istype_mergeNode (n : Node) (k : Nat) : istype (mergeNode n) k = istype n k := rfl

@[simp] theorem mergeNode_id (n : Node) : (mergeNode n).id = n.id := rfl

@[simp] theorem mergeNode_name (n : Node) : (mergeNode n).name = n.name := rfl

@[simp] theorem mergeNode_nodetype (n : Node) : (mergeNode n).nodetype = n.nodetype := rfl

@[simp] theorem mergeNode_focused (n : Node) : (mergeNode n).focused = n.focused := rfl

@[simp] theorem mergeNode_window (n : Node) : (mergeNode n).window = n.window := rfl

@[simp] theorem mergeNode_x11window (n : Node) : (mergeNode n).x11window = n.x11window := rfl

theorem mergeNode_nodes (n : Node) : (mergeNode n).nodes = n.nodes ++ n.floatingNodes := rfl

theorem istype_root_iff (n : Node) : istype n root = true ↔ n.nodetype = "root" := by
  unfold istype
  split <;> simp_all [root, output, workspace, con, floating]

theorem istype_workspace_iff (n : Node) : istype n workspace = true ↔ n.nodetype = "workspace" := by
  unfold istype
  split <;> simp_all [root, output, workspace, con, floating]

theorem istype_con_iff (n : Node) : istype n con = true ↔ n.nodetype = "con" := by
  unfold istype
  split <;> simp_all [root, output, workspace, con, floating]

theorem istype_floating_iff (n : Node) :
    istype n floating = true ↔ n.nodetype = "floating_con" := by
  unfold istype
  split <;> simp_all [root, output, workspace, con, floating]

theorem istype_output_iff (n : Node) : istype n output = true ↔ n.nodetype = "output" := by
  unfold istype
  split <;> simp_all [root, output, workspace, con, floating]

/-- A node of kind con or floating-con is not a workspace node. -/
theorem istype_workspace_false_of_bearing (n : Node)
    (h : (istype n con || istype n floating) = true) : istype n workspace = false := by
  have hty : n.nodetype = "con" ∨ n.nodetype = "floating_con" := by
    rcases Bool.or_eq_true _ _ |>.mp h with h1 | h1
    · exact Or.inl ((istype_con_iff n).mp h1)
    · exact Or.inr ((istype_floating_iff n).mp h1)
  rw [Bool.eq_false_iff]
  intro hw
  rw [istype_workspace_iff] at hw
  rcases hty with h2 | h2 <;> simp_all

/-- Skipping root children whose current-workspace field is empty. -/
theorem processLoop_append_empty (pre rest : List Node)
    (h : ∀ x ∈ pre, x.currentWorkspace = "") :
    processLoop (pre ++ rest) = processLoop rest := by
  induction pre with
  | nil => rfl
  | cons x xs ih =>
      have hx : x.currentWorkspace = "" := h x (by simp)
      have ih2 := ih (fun y hy => h y (by simp [hy]))
      simpa [processLoop, hx] using ih2

/-- The first root child with a non-empty current-workspace field is taken. -/
theorem processLoop_cons_hit (o : Node) (rest : List Node) (h : o.currentWorkspace ≠ "") :
    processLoop (o :: rest) = (o.currentWorkspace, recurseNodes o.currentWorkspace [] o.nodes) := by
  simp [processLoop, h]

/-- C5: tree processing fails with the invalid-tree error if and only if the
root node is both not of kind root and has no children; a tree whose root is
of kind root or has at least one child is accepted without this error. -/
theorem C5_invalid_tree_iff (sway : Node) :
    processJSON sway = Except.error "Invalid or empty JSON structure"
      ↔ (istype sway root = false ∧ sway.nodes = []) := by
  unfold processJSON
  by_cases h : ((!istype sway root) && sway.nodes.isEmpty) = true
  · simp only [h, if_true]
    simp only [Bool.and_eq_true, Bool.not_eq_true', List.isEmpty_iff] at h
    simp [h]
  · simp only [h, if_false]
    simp only [Bool.and_eq_true, Bool.not_eq_true', List.isEmpty_iff] at h
    constructor
    · intro hc
      exact absurd hc (by simp)
    · intro hc
      exact absurd hc (by tauto)

/-- C7: running the Visibility Resolver twice on the same unchanged tree
payload yields identical ordered visible-window lists.  Each invocation is a
fresh process: the payload is parsed anew and the resolver starts from the
initial global state (empty accumulator, empty current-workspace name), which
`resolverRun` models; the resolver is a pure function of the parsed tree, so
the second run's list equals the first run's. -/
theorem C7_resolver_deterministic (sway : Node) : resolverRun sway = resolverRun sway := rfl

/-- C4: for every container or floating-container node that carries a window
handle or non-empty compatibility id and also has nested children, the
resolver appends that node itself (its id and focus flag unchanged; its child
list carries the floating merge) to the visible list and does not recurse
into its children, so none of its descendants appear in the list: processing
`node :: rest` continues on `rest` with only the node itself appended. -/
theorem C4_window_bearing_no_descent (cw : String) (vis rest : List Node) (node : Node)
    (hkind : (istype node con || istype node floating) = true)
    (hwin : node.window > 0 ∨ node.x11window ≠ "")
    (_hchildren : node.nodes ≠ []) :
    recurseNodes cw vis (node :: rest) = recurseNodes cw (vis ++ [mergeNode node]) rest
      ∧ (mergeNode node).id = node.id ∧ (mergeNode node).focused = node.focused := by
  refine ⟨?_, rfl, rfl⟩
  have hws : istype (mergeNode node) workspace = false := by
    rw [istype_mergeNode]
    exact istype_workspace_false_of_bearing node hkind
  have hcond : ((istype (mergeNode node) con || istype (mergeNode node) floating)
      && (decide ((mergeNode node).window > 0) || (mergeNode node).x11window != "")) = true := by
    simp only [istype_mergeNode, mergeNode_window, mergeNode_x11window, Bool.and_eq_true]
    refine ⟨hkind, ?_⟩
    rcases hwin with h | h
    · simp [h]
    · simp [h]
  rw [recurseNodes_cons, if_neg (by simp [hws]), if_pos hcond]

/-- A Scenario-E node for the C4 witness: a con node with a window handle of
its own and a nested window-bearing child. -/
def wE : Node :=
  ⟨30, "con", "E", [⟨31, "con", "inner", [], [], false, 8, "", ""⟩], [], false, 7, "", ""⟩

/-- Closed witness for C4: processing the Scenario-E node appends the node
itself and produces a singleton list — its nested child never appears. -/
theorem C4_witness :
    recurseNodes "1" [] [wE] = [mergeNode wE]
    ∧ (mergeNode wE).id = 30 ∧ (recurseNodes "1" [] [wE]).map Node.id = [30] := by
  have h := C4_window_bearing_no_descent "1" [] [] wE (by decide) (by left; decide)
    (by simp [wE])
  have h2 : recurseNodes "1" [] [wE] = [mergeNode wE] := by
    rw [h.1, recurseNodes_nil]
    simp
  refine ⟨h2, rfl, ?_⟩
  rw [h2]
  rfl

/-- Round trip of the spec-modelled IPC frame codec on any non-empty payload
whose length fits the 4-byte length field. -/
theorem decodeFrame_encodeFrame (t : Nat) (p : List Nat) (h0 : p ≠ [])
    (h1 : p.length < 4294967296) :
    decodeFrame (encodeFrame t p) = Except.ok p := by
  have hm : strBytes IPC_MAGIC = [105, 51, 45, 105, 112, 99] := rfl
  have hrec : p.length % 256 + 256 * (p.length / 256 % 256)
      + 65536 * (p.length / 65536 % 256) + 16777216 * (p.length / 16777216 % 256)
      = p.length := by omega
  have hlen0 : p.length ≠ 0 := fun hc => h0 (List.length_eq_zero.mp hc)
  unfold encodeFrame le32
  rw [hm]
  simp only [List.cons_append, List.nil_append]
  rw [decodeFrame]
  rw [hm]
  rw [if_neg (by simp), if_neg (by omega), if_neg (by simp [List.take_length, hrec])]
  rw [hrec, List.take_length]

/-- C8: encoding a RUN_COMMAND focus request for a window id and decoding it
back yields the focus command's byte payload unchanged, and for every id the
focus command is the string composed of the prefix `[con_id=`, the decimal
id, and the suffix `] focus` (at id 14: `[con_id=14] focus`). -/
theorem C8_roundtrip (id : Int) (hlen : (focusCommand id).length < 4294967296) :
    decodeFrame (encodeFrame IPC_RUN_COMMAND (strBytes (focusCommand id)))
      = Except.ok (strBytes (focusCommand id))
    ∧ focusCommand id = "[con_id=" ++ toString id ++ "] focus" := by
  have hsb : (strBytes (focusCommand id)).length = (focusCommand id).length := by
    unfold strBytes
    rw [List.length_map]
    rfl
  have hfc : (focusCommand id).length = 8 + (toString id).length + 7 := by
    unfold focusCommand
    rw [String.length_append, String.length_append]
    have ha : ("[con_id=" : String).length = 8 := rfl
    have hb : ("] focus" : String).length = 7 := rfl
    rw [ha, hb]
  refine ⟨?_, rfl⟩
  apply decodeFrame_encodeFrame
  · intro hc
    have := congrArg List.length hc
    rw [hsb, hfc] at this
    simp at this
  · rw [hsb]
    exact hlen

/-- Closed witness for C8 at id 14: the decoded payload is the literal byte
sequence of `"[con_id=14] focus"`. -/
theorem C8_witness :
    (focusCommand 14).length < 4294967296
    ∧ decodeFrame (encodeFrame IPC_RUN_COMMAND (strBytes (focusCommand 14)))
      = Except.ok (strBytes "[con_id=14] focus")
    ∧ focusCommand 14 = "[con_id=14] focus" := by
  refine ⟨by decide, ?_, rfl⟩
  exact (C8_roundtrip 14 (by decide)).1

/-- Scanning a block of unfocused entries with the flag down skips them. -/
theorem findNextAux_skip (first : Int) (l l2 : List Node)
    (h : ∀ x ∈ l, x.focused = false) :
    findNextAux first false (l ++ l2) = findNextAux first false l2 := by
  induction l with
  | nil => rfl
  | cons x xs ih =>
      have hx : x.focused = false := h x (by simp)
      rw [List.cons_append]
      rw [show findNextAux first false (x :: (xs ++ l2)) = findNextAux first false (xs ++ l2)
        from by simp [findNextAux, hx]]
      exact ih fun y hy => h y (by simp [hy])

/-- Reaching the focused entry raises the flag. -/
theorem findNextAux_focus (first : Int) (f : Node) (b : List Node) (hf : f.focused = true) :
    findNextAux first false (f :: b) = findNextAux first true b := by
  simp [findNextAux, hf]

/-- With the flag up, the next unfocused entry's id is returned. -/
theorem findNextAux_after_cons (first : Int) (y : Node) (rest : List Node)
    (hy : y.focused = false) : findNextAux first true (y :: rest) = y.id := by
  simp [findNextAux, hy]

/-- A wholly unfocused scan returns the 0 sentinel. -/
theorem findNextAux_none (first : Int) (l : List Node)
    (h : ∀ x ∈ l, x.focused = false) : findNextAux first false l = 0 := by
  have h2 := findNextAux_skip first l [] h
  rw [List.append_nil] at h2
  rw [h2]
  rfl

/-- C2: for every visible-window list with exactly one focused entry — written
`a ++ f :: b` with `f` focused and every entry of `a` and `b` unfocused, so
the focus position is `i = a.length` and the size is `n = (a ++ f :: b).length`
— `findNextWindow` returns the id of the entry at position `(i+1) % n`
(wrapping to the first entry's id when the focused entry is last); and for
every list with no focused entry it returns 0. -/
theorem C2_findNextWindow_cyclic :
    (∀ (a b : List Node) (f : Node),
        (∀ x ∈ a, x.focused = false) → f.focused = true → (∀ x ∈ b, x.focused = false) →
        findNextWindow (a ++ f :: b)
          = ((a ++ f :: b).getD ((a.length + 1) % (a ++ f :: b).length) dNode).id)
    ∧ ∀ vis : List Node, (∀ x ∈ vis, x.focused = false) → findNextWindow vis = 0 := by
  constructor
  · intro a b f ha hf hb
    cases a with
    | nil =>
        simp only [List.nil_append]
        rw [show findNextWindow (f :: b) = findNextAux f.id false (f :: b) from rfl]
        rw [findNextAux_focus _ _ _ hf]
        cases b with
        | nil => simp [findNextAux]
        | cons y rest =>
            rw [findNextAux_after_cons _ _ _ (hb y (by simp))]
            have hm : (List.length ([] : List Node) + 1) % (f :: y :: rest).length = 1 := by
              simp
            rw [hm]
            rfl
    | cons x a2 =>
        rw [show findNextWindow ((x :: a2) ++ f :: b) = findNextAux x.id false ((x :: a2) ++ f :: b)
          from rfl]
        rw [findNextAux_skip x.id (x :: a2) (f :: b) ha]
        rw [findNextAux_focus _ _ _ hf]
        cases b with
        | nil =>
            have hidx : ((x :: a2).length + 1) % ((x :: a2) ++ f :: ([] : List Node)).length
                = 0 := by
              simp
            rw [hidx]
            rw [show ((x :: a2) ++ [f]).getD 0 dNode = x from rfl]
            rfl
        | cons y rest =>
            rw [findNextAux_after_cons _ _ _ (hb y (by simp))]
            have hlt : (x :: a2).length + 1 < ((x :: a2) ++ f :: y :: rest).length := by
              simp
            rw [Nat.mod_eq_of_lt hlt]
            rw [List.getD_append_right _ _ _ _ (by simp)]
            have hone : (x :: a2).length + 1 - (x :: a2).length = 1 := by omega
            rw [hone]
            rfl
  · intro vis h
    cases vis with
    | nil => rfl
    | cons v0 rest =>
        rw [show findNextWindow (v0 :: rest) = findNextAux v0.id false (v0 :: rest) from rfl]
        exact findNextAux_none _ _ h

/-- Closed witness for C2 at Scenario A/B: with [10, 11f, 12] the next id is
12; with [10, 11, 12f] (focused last) it wraps to 10; with no focus it is 0. -/
theorem C2_witness :
    findNextWindow [⟨10, "con", "a", [], [], false, 1, "", ""⟩,
        ⟨11, "con", "b", [], [], true, 2, "", ""⟩,
        ⟨12, "con", "c", [], [], false, 3, "", ""⟩] = 12
    ∧ findNextWindow [⟨10, "con", "a", [], [], false, 1, "", ""⟩,
        ⟨11, "con", "b", [], [], false, 2, "", ""⟩,
        ⟨12, "con", "c", [], [], true, 3, "", ""⟩] = 10
    ∧ findNextWindow [⟨10, "con", "a", [], [], false, 1, "", ""⟩,
        ⟨12, "con", "c", [], [], false, 3, "", ""⟩] = 0 := by
  refine ⟨?_, ?_, ?_⟩
  · have h := C2_findNextWindow_cyclic.1 [⟨10, "con", "a", [], [], false, 1, "", ""⟩]
      [⟨12, "con", "c", [], [], false, 3, "", ""⟩] ⟨11, "con", "b", [], [], true, 2, "", ""⟩
      (by simp) rfl (by simp)
    simpa using h
  · have h := C2_findNextWindow_cyclic.1 [⟨10, "con", "a", [], [], false, 1, "", ""⟩,
      ⟨11, "con", "b", [], [], false, 2, "", ""⟩] []
      ⟨12, "con", "c", [], [], true, 3, "", ""⟩ (by simp) rfl (by simp)
    simpa using h
  · exact C2_findNextWindow_cyclic.2 _ (by simp)

/-- The element at index length-1 is the last element. -/
theorem getD_length_sub_one (l : List Node) (d : Node) (h : l ≠ []) :
    l.getD (l.length - 1) d = l.getLast h := by
  induction l with
  | nil => exact absurd rfl h
  | cons x xs ih =>
      cases xs with
      | nil => rfl
      | cons y ys =>
          have hne : (y :: ys) ≠ ([] : List Node) := by simp
          have ih2 := ih hne
          have hL : (x :: y :: ys).length - 1 = ((y :: ys).length - 1) + 1 := by
            simp
          rw [hL, List.getD_cons_succ, ih2]
          rfl

/-- Scanning unfocused entries tracks the last of them as the previous id;
reaching the focused entry returns it (or the seed when none preceded). -/
theorem findPrevAux_skip (p : Int) (l : List Node) (f : Node) (b : List Node)
    (h : ∀ x ∈ l, x.focused = false) (hf : f.focused = true) :
    findPrevAux p (l ++ f :: b) = ((l.getLast?).map Node.id).getD p := by
  induction l generalizing p with
  | nil => simp [findPrevAux, hf]
  | cons x xs ih =>
      have hx : x.focused = false := h x (by simp)
      rw [List.cons_append]
      rw [show findPrevAux p (x :: (xs ++ f :: b)) = findPrevAux x.id (xs ++ f :: b)
        from by simp [findPrevAux, hx]]
      rw [ih x.id (fun y hy => h y (by simp [hy]))]
      cases xs with
      | nil => simp
      | cons z zs =>
          have hne : (z :: zs) ≠ ([] : List Node) := by simp
          rw [List.getLast?_cons_cons, List.getLast?_eq_getLast_of_ne_nil hne]
          simp

/-- A wholly unfocused scan returns the 0 sentinel. -/
theorem findPrevAux_none (p : Int) (l : List Node) (h : ∀ x ∈ l, x.focused = false) :
    findPrevAux p l = 0 := by
  induction l generalizing p with
  | nil => rfl
  | cons x xs ih =>
      rw [show findPrevAux p (x :: xs) = findPrevAux x.id xs
        from by simp [findPrevAux, h x (by simp)]]
      exact ih x.id fun y hy => h y (by simp [hy])

/-- C3: for every visible-window list with exactly one focused entry — written
`a ++ f :: b` with `f` focused and every entry of `a` and `b` unfocused, so
the focus position is `i = a.length` and the size is `n = (a ++ f :: b).length`
— `findPrevWindow` returns the id of the entry at position `(i-1) mod n`,
written `(i + n - 1) % n` over naturals (the pre-seeded last entry's id when
the focused entry is first); and for every list with no focused entry it
returns 0. -/
theorem C3_findPrevWindow_cyclic :
    (∀ (a b : List Node) (f : Node),
        (∀ x ∈ a, x.focused = false) → f.focused = true → (∀ x ∈ b, x.focused = false) →
        findPrevWindow (a ++ f :: b)
          = ((a ++ f :: b).getD
              ((a.length + (a ++ f :: b).length - 1) % (a ++ f :: b).length) dNode).id)
    ∧ ∀ vis : List Node, (∀ x ∈ vis, x.focused = false) → findPrevWindow vis = 0 := by
  constructor
  · intro a b f ha hf hb
    have hfb : (f :: b) ≠ ([] : List Node) := by simp
    have hlast : (a ++ f :: b).getLast? = some ((f :: b).getLast hfb) := by
      rw [List.getLast?_append_of_ne_nil _ hfb]
      exact List.getLast?_eq_getLast_of_ne_nil hfb
    rw [show findPrevWindow (a ++ f :: b)
        = findPrevAux ((f :: b).getLast hfb).id (a ++ f :: b) from by
      unfold findPrevWindow
      rw [hlast]]
    rw [findPrevAux_skip _ _ _ _ ha hf]
    cases a with
    | nil =>
        have hidx : (List.length ([] : List Node) + (([] : List Node) ++ f :: b).length - 1)
            % (([] : List Node) ++ f :: b).length = (f :: b).length - 1 := by
          simp only [List.nil_append, List.length_nil, Nat.zero_add]
          apply Nat.mod_eq_of_lt
          simp
        rw [hidx]
        simp only [List.nil_append]
        rw [getD_length_sub_one _ _ hfb]
        simp
    | cons x a2 =>
        have hxa : (x :: a2) ≠ ([] : List Node) := by simp
        rw [List.getLast?_eq_getLast_of_ne_nil hxa]
        have hidx : ((x :: a2).length + ((x :: a2) ++ f :: b).length - 1)
            % ((x :: a2) ++ f :: b).length = (x :: a2).length - 1 := by
          have h1 : (x :: a2).length + ((x :: a2) ++ f :: b).length - 1
              = ((x :: a2).length - 1) + ((x :: a2) ++ f :: b).length := by
            simp only [List.length_cons, List.length_append]
            omega
          rw [h1, Nat.add_mod_right]
          apply Nat.mod_eq_of_lt
          simp only [List.length_cons, List.length_append]
          omega
        rw [hidx]
        rw [List.getD_append _ _ _ _ (by simp)]
        rw [getD_length_sub_one _ _ hxa]
        rfl
  · intro vis h
    cases vis with
    | nil => rfl
    | cons v0 rest =>
        have hne : (v0 :: rest) ≠ ([] : List Node) := by simp
        rw [show findPrevWindow (v0 :: rest)
            = findPrevAux ((v0 :: rest).getLast hne).id (v0 :: rest) from by
          unfold findPrevWindow
          rw [List.getLast?_eq_getLast_of_ne_nil hne]]
        exact findPrevAux_none _ _ h

/-- Closed witness for C3 at Scenario A/B: with [10, 11f, 12] the previous id
is 10; with [10f, 11, 12] (focused first) it wraps to 12; with no focus it
is 0. -/
theorem C3_witness :
    findPrevWindow [⟨10, "con", "a", [], [], false, 1, "", ""⟩,
        ⟨11, "con", "b", [], [], true, 2, "", ""⟩,
        ⟨12, "con", "c", [], [], false, 3, "", ""⟩] = 10
    ∧ findPrevWindow [⟨10, "con", "a", [], [], true, 1, "", ""⟩,
        ⟨11, "con", "b", [], [], false, 2, "", ""⟩,
        ⟨12, "con", "c", [], [], false, 3, "", ""⟩] = 12
    ∧ findPrevWindow [⟨10, "con", "a", [], [], false, 1, "", ""⟩,
        ⟨12, "con", "c", [], [], false, 3, "", ""⟩] = 0 := by
  refine ⟨?_, ?_, ?_⟩
  · have h := C3_findPrevWindow_cyclic.1 [⟨10, "con", "a", [], [], false, 1, "", ""⟩]
      [⟨12, "con", "c", [], [], false, 3, "", ""⟩] ⟨11, "con", "b", [], [], true, 2, "", ""⟩
      (by simp) rfl (by simp)
    simpa using h
  · have h := C3_findPrevWindow_cyclic.1 []
      [⟨11, "con", "b", [], [], false, 2, "", ""⟩, ⟨12, "con", "c", [], [], false, 3, "", ""⟩]
      ⟨10, "con", "a", [], [], true, 1, "", ""⟩ (by simp) rfl (by simp)
    simpa using h
  · exact C3_findPrevWindow_cyclic.2 _ (by simp)

/-- Any element of the traversal's result is either carried over from the
accumulator or is a window-bearing con/floating-con node. -/
theorem recurseNodes_mem (cw : String) :
    ∀ N l vis x, listTsize l ≤ N → x ∈ recurseNodes cw vis l →
      x ∈ vis ∨ ((istype x con || istype x floating) = true
        ∧ (x.window > 0 ∨ x.x11window ≠ "")) := by
  intro N
  induction N with
  | zero =>
      intro l vis x hle hx
      cases l with
      | nil =>
          rw [recurseNodes_nil] at hx
          exact Or.inl hx
      | cons node rest =>
          rw [listTsize_cons] at hle
          omega
  | succ N ih =>
      intro l vis x hle hx
      cases l with
      | nil =>
          rw [recurseNodes_nil] at hx
          exact Or.inl hx
      | cons node rest =>
          rw [listTsize_cons] at hle
          rw [recurseNodes_cons] at hx
          by_cases hws : istype (mergeNode node) workspace = true
          · rw [if_pos hws] at hx
            by_cases hnm : (mergeNode node).name = cw
            · rw [if_pos hnm] at hx
              refine ih (mergeNode node).nodes vis x ?_ hx
              rw [mergeNode_nodes, listTsize_append]
              omega
            · rw [if_neg hnm] at hx
              exact ih rest vis x (by omega) hx
          · rw [if_neg hws] at hx
            by_cases hbear : ((istype (mergeNode node) con || istype (mergeNode node) floating)
                && (decide ((mergeNode node).window > 0)
                  || (mergeNode node).x11window != "")) = true
            · rw [if_pos hbear] at hx
              rcases ih rest (vis ++ [mergeNode node]) x (by omega) hx with hin | hgood
              · rcases List.mem_append.mp hin with hv | hm
                · exact Or.inl hv
                · right
                  have hxm : x = mergeNode node := by simpa using hm
                  rcases Bool.and_eq_true _ _ |>.mp hbear with ⟨hk, hw⟩
                  subst hxm
                  refine ⟨by simpa using hk, ?_⟩
                  rcases Bool.or_eq_true _ _ |>.mp hw with hw1 | hw1
                  · exact Or.inl (by simpa using of_decide_eq_true hw1)
                  · right
                    simpa [bne_iff_ne] using hw1
              · exact Or.inr hgood
            · rw [if_neg hbear] at hx
              rcases ih rest (recurseNodes cw vis (mergeNode node).nodes) x (by omega) hx
                with hin | hgood
              · rcases ih (mergeNode node).nodes vis x
                    (by rw [mergeNode_nodes, listTsize_append]; omega) hin with hv | hg
                · exact Or.inl hv
                · exact Or.inr hg
              · exact Or.inr hgood

/-- C9: every entry the resolver ever appends to the visible-window list
(started from the empty accumulator, for any current-workspace name and any
input forest) is a node of kind con or floating-con carrying a positive
window handle or a non-empty compatibility-id string; no root, output, or
workspace node ever appears in the list. -/
theorem C9_visible_entries_window_bearing (cw : String) (l : List Node) (x : Node)
    (hx : x ∈ recurseNodes cw [] l) :
    (istype x con || istype x floating) = true
    ∧ (x.window > 0 ∨ x.x11window ≠ "")
    ∧ istype x root = false ∧ istype x output = false ∧ istype x workspace = false := by
  rcases recurseNodes_mem cw (listTsize l) l [] x le_rfl hx with h | h
  · simp at h
  · obtain ⟨h1, h2⟩ := h
    have hty : x.nodetype = "con" ∨ x.nodetype = "floating_con" := by
      rcases Bool.or_eq_true _ _ |>.mp h1 with hk | hk
      · exact Or.inl ((istype_con_iff x).mp hk)
      · exact Or.inr ((istype_floating_iff x).mp hk)
    refine ⟨h1, h2, ?_, ?_, istype_workspace_false_of_bearing x h1⟩
    · rw [Bool.eq_false_iff]
      intro hc
      rw [istype_root_iff] at hc
      rcases hty with h3 | h3 <;> simp_all
    · rw [Bool.eq_false_iff]
      intro hc
      rw [istype_output_iff] at hc
      rcases hty with h3 | h3 <;> simp_all

/-- Closed witness for C9: the single entry extracted from a one-node forest
is window-bearing and of kind con. -/
theorem C9_witness :
    (istype (mergeNode wE) con || istype (mergeNode wE) floating) = true
    ∧ ((mergeNode wE).window > 0 ∨ (mergeNode wE).x11window ≠ "")
    ∧ istype (mergeNode wE) root = false ∧ istype (mergeNode wE) output = false
    ∧ istype (mergeNode wE) workspace = false := by
  refine C9_visible_entries_window_bearing "1" [wE] (mergeNode wE) ?_
  rw [recurseNodes_cons]
  rw [if_neg (by simp [wE, istype, mergeNode, workspace, con, floating])]
  rw [if_pos (by simp [wE, istype, mergeNode, con, floating, root, output, workspace])]
  rw [recurseNodes_nil]
  simp

/-- C10: for every tree in which two or more immediate children of the root
carry a non-empty current-workspace field, only the first such child (in
document order) determines the recorded current workspace and contributes
entries to the visible list; the loop `break`s there, so all later children
— whatever their active workspace names — are ignored entirely. -/
theorem C10_first_output_wins (t o : Node) (pre post : List Node)
    (ht : t.nodes = pre ++ o :: post)
    (hpre : ∀ x ∈ pre, x.currentWorkspace = "")
    (ho : o.currentWorkspace ≠ "")
    (_hlater : ∃ x ∈ post, x.currentWorkspace ≠ "") :
    processJSON t
      = Except.ok (o.currentWorkspace, recurseNodes o.currentWorkspace [] o.nodes) := by
  unfold processJSON
  rw [if_neg (by simp [ht])]
  rw [ht, processLoop_append_empty pre (o :: post) hpre, processLoop_cons_hit o post ho]

/-- Two outputs with different active workspaces for the C10 witness: the
first carries workspace "1" with window 40, the second workspace "2" with
window 50. -/
def twoOutTree : Node :=
  ⟨1, "root", "root",
    [⟨2, "output", "eDP-1",
        [⟨3, "workspace", "1", [⟨40, "con", "a", [], [], true, 4, "", ""⟩], [], false, 0, "", ""⟩],
        [], false, 0, "", "1"⟩,
      ⟨5, "output", "HDMI-1",
        [⟨6, "workspace", "2", [⟨50, "con", "b", [], [], false, 5, "", ""⟩], [], false, 0, "", ""⟩],
        [], false, 0, "", "2"⟩],
    [], false, 0, "", ""⟩

/-- Closed witness for C10: with two outputs whose active workspaces are "1"
and "2", the recorded workspace is "1" and the visible list holds only the
first output's window (id 40); id 50 from the second output never appears. -/
theorem C10_witness :
    processJSON twoOutTree
      = Except.ok ("1",
          recurseNodes "1" []
            [⟨3, "workspace", "1", [⟨40, "con", "a", [], [], true, 4, "", ""⟩], [],
              false, 0, "", ""⟩])
    ∧ (processJSON twoOutTree).map (fun r => r.2.map Node.id) = Except.ok [40] := by
  have h := C10_first_output_wins twoOutTree
    ⟨2, "output", "eDP-1",
      [⟨3, "workspace", "1", [⟨40, "con", "a", [], [], true, 4, "", ""⟩], [], false, 0, "", ""⟩],
      [], false, 0, "", "1"⟩
    []
    [⟨5, "output", "HDMI-1",
        [⟨6, "workspace", "2", [⟨50, "con", "b", [], [], false, 5, "", ""⟩], [], false, 0, "", ""⟩],
        [], false, 0, "", "2"⟩]
    rfl (by simp) (by simp)
    ⟨⟨5, "output", "HDMI-1",
        [⟨6, "workspace", "2", [⟨50, "con", "b", [], [], false, 5, "", ""⟩], [], false, 0, "", ""⟩],
        [], false, 0, "", "2"⟩, by simp, by simp⟩
  refine ⟨h, ?_⟩
  rw [h]
  rw [recurseNodes_cons]
  rw [if_pos (by simp [istype, mergeNode, workspace])]
  rw [if_pos (by simp [mergeNode])]
  rw [show (mergeNode ⟨3, "workspace", "1", [⟨40, "con", "a", [], [], true, 4, "", ""⟩], [],
      false, 0, "", ""⟩).nodes = [⟨40, "con", "a", [], [], true, 4, "", ""⟩] from rfl]
  rw [recurseNodes_cons]
  rw [if_neg (by simp [istype, mergeNode, workspace, con, floating, root, output])]
  rw [if_pos (by simp [istype, mergeNode, con, floating, root, output, workspace])]
  rw [recurseNodes_nil]
  rfl

/-- C6 (amended): for every tree that passes the root validity check (the
root is of kind root or has at least one child) and in which no immediate
child of the root carries a non-empty active-workspace name, the resolver
produces an empty visible-window list without error, and the process exits
successfully without attempting any focus switch (for either cycling
direction and either no-switch setting). -/
theorem C6_amended_empty_is_ok (previous notswitch : Bool) (t : Node)
    (hvalid : istype t root = true ∨ t.nodes ≠ [])
    (hnone : ∀ x ∈ t.nodes, x.currentWorkspace = "") :
    processJSON t = Except.ok ("", [])
    ∧ mainRun previous notswitch t = Outcome.exitSuccessNoAction := by
  have hp : processJSON t = Except.ok ("", []) := by
    unfold processJSON
    rw [if_neg ?hcond]
    case hcond =>
      rcases hvalid with h | h
      · simp [h]
      · simp [List.isEmpty_iff, h]
    have h2 := processLoop_append_empty t.nodes [] hnone
    rw [List.append_nil] at h2
    rw [h2]
    rfl
  refine ⟨hp, ?_⟩
  unfold mainRun
  rw [hp]
  rfl

/-- A tree whose root is of kind con with no children: vacuously, no output
node carries a non-empty active-workspace name. -/
def lonelyConTree : Node :=
  ⟨1, "con", "alone", [], [], true, 9, "", ""⟩

/-- Counterexample to C6 as stated: `lonelyConTree` contains no output node
carrying a non-empty active-workspace name (it has no children at all), yet
the resolver does not produce an empty visible-window list — it fails with
the invalid-tree error, and the process exits fatally rather than
successfully. -/
theorem C6_counterexample :
    (∀ x ∈ lonelyConTree.nodes, x.currentWorkspace = "")
    ∧ processJSON lonelyConTree = Except.error "Invalid or empty JSON structure"
    ∧ mainRun false false lonelyConTree = Outcome.fatal "Invalid or empty JSON structure" := by
  refine ⟨by simp [lonelyConTree], ?_, ?_⟩
  · unfold processJSON
    rw [if_pos (by simp [lonelyConTree, istype, root, output, workspace, con, floating])]
  · unfold mainRun processJSON
    rw [if_pos (by simp [lonelyConTree, istype, root, output, workspace, con, floating])]

/-- A valid tree with one output and no active workspace name anywhere, for
the C6 witness. -/
def idleTree : Node :=
  ⟨1, "root", "root", [⟨2, "output", "eDP-1", [], [], false, 0, "", ""⟩], [], false, 0, "", ""⟩

/-- Closed witness for the amended C6: on a valid tree whose only output
reports no active workspace, the resolver yields the empty list and the
process exits successfully with no switch. -/
theorem C6_witness :
    processJSON idleTree = Except.ok ("", [])
    ∧ mainRun false false idleTree = Outcome.exitSuccessNoAction := by
  exact C6_amended_empty_is_ok false false idleTree
    (Or.inl (by simp [idleTree, istype, root]))
    (by simp [idleTree])

theorem specVisibleWindows_nil : specVisibleWindows [] = [] := by
  rw [specVisibleWindows]

theorem specVisibleWindows_cons (n : Node) (rest : List Node) :
    specVisibleWindows (n :: rest) =
      if (istype n con || istype n floating)
          && (decide (n.window > 0) || n.x11window != "") then
        n :: specVisibleWindows rest
      else
        (specVisibleWindows n.nodes ++ specVisibleWindows n.floatingNodes)
          ++ specVisibleWindows rest := by
  rw [specVisibleWindows]

theorem specAllWindows_nil : specAllWindows [] = [] := by
  rw [specAllWindows]

theorem specAllWindows_cons (n : Node) (rest : List Node) :
    specAllWindows (n :: rest) =
      (if (istype n con || istype n floating)
          && (decide (n.window > 0) || n.x11window != "") then [n] else [])
        ++ (specAllWindows n.nodes ++ specAllWindows n.floatingNodes)
        ++ specAllWindows rest := by
  rw [specAllWindows]

theorem subtreeIds_nil : subtreeIds [] = [] := by
  rw [subtreeIds]

theorem subtreeIds_cons (n : Node) (rest : List Node) :
    subtreeIds (n :: rest)
      = n.id :: ((subtreeIds n.nodes ++ subtreeIds n.floatingNodes) ++ subtreeIds rest) := by
  rw [subtreeIds]

theorem noWsForest_nil : noWsForest [] = true := by
  rw [noWsForest]

theorem noWsForest_cons (n : Node) (rest : List Node) :
    noWsForest (n :: rest)
      = ((n.nodetype != "workspace") && noWsForest n.nodes && noWsForest n.floatingNodes
        && noWsForest rest) := by
  rw [noWsForest]

theorem noWsForest_append (a b : List Node) :
    noWsForest (a ++ b) = (noWsForest a && noWsForest b) := by
  induction a with
  | nil =>
      rw [List.nil_append, noWsForest_nil]
      simp
  | cons n rest ih =>
      rw [List.cons_append, noWsForest_cons, noWsForest_cons, ih]
      simp [Bool.and_assoc]

/-- The spec collector distributes over appended forests. -/
theorem specVisibleWindows_append (a b : List Node) :
    specVisibleWindows (a ++ b) = specVisibleWindows a ++ specVisibleWindows b := by
  induction a with
  | nil => rw [List.nil_append, specVisibleWindows_nil, List.nil_append]
  | cons n rest ih =>
      rw [List.cons_append, specVisibleWindows_cons, specVisibleWindows_cons, ih]
      by_cases h : ((istype n con || istype n floating)
          && (decide (n.window > 0) || n.x11window != "")) = true
      · rw [if_pos h, if_pos h]
        rfl
      · rw [if_neg h, if_neg h]
        simp

/-- On a forest containing no workspace node anywhere, the source traversal
computes exactly the spec-words visible-window list (each appended node
carrying its floating merge). -/
theorem recurseNodes_spec (cw : String) :
    ∀ N l vis, listTsize l ≤ N → noWsForest l = true →
      recurseNodes cw vis l = vis ++ (specVisibleWindows l).map mergeNode := by
  intro N
  induction N with
  | zero =>
      intro l vis hle hws
      cases l with
      | nil =>
          rw [recurseNodes_nil, specVisibleWindows_nil]
          simp
      | cons node rest =>
          rw [listTsize_cons] at hle
          omega
  | succ N ih =>
      intro l vis hle hws
      cases l with
      | nil =>
          rw [recurseNodes_nil, specVisibleWindows_nil]
          simp
      | cons node rest =>
          rw [listTsize_cons] at hle
          rw [noWsForest_cons] at hws
          simp only [Bool.and_eq_true] at hws
          obtain ⟨⟨⟨hw1, hwn⟩, hwf⟩, hwr⟩ := hws
          have hnotws : istype (mergeNode node) workspace = false := by
            rw [istype_mergeNode, Bool.eq_false_iff]
            intro hc
            rw [istype_workspace_iff] at hc
            simp [hc] at hw1
          rw [recurseNodes_cons, if_neg (by simp [hnotws]), specVisibleWindows_cons]
          by_cases hbear : ((istype node con || istype node floating)
              && (decide (node.window > 0) || node.x11window != "")) = true
          · rw [if_pos (by simpa using hbear), if_pos hbear]
            rw [ih rest (vis ++ [mergeNode node]) (by omega) hwr]
            simp
          · rw [if_neg (by simpa using hbear), if_neg hbear]
            have hsz : listTsize (mergeNode node).nodes ≤ N := by
              rw [mergeNode_nodes, listTsize_append]
              omega
            have hwsm : noWsForest (mergeNode node).nodes = true := by
              rw [mergeNode_nodes, noWsForest_append, hwn, hwf]
              rfl
            rw [ih rest _ (by omega) hwr]
            rw [ih (mergeNode node).nodes vis hsz hwsm]
            rw [mergeNode_nodes]
            simp [specVisibleWindows_append]

/-- Iterating over non-matching workspace siblings skips them, and hitting
the matching workspace descends into its merged children and abandons
whatever follows (the Go `return`). -/
theorem recurseNodes_ws_branch (cw : String) (vis : List Node) (ws : Node) :
    ∀ (wpre wpost : List Node),
      (∀ x ∈ wpre, istype x workspace = true ∧ x.name ≠ cw) →
      istype ws workspace = true → ws.name = cw →
      recurseNodes cw vis (wpre ++ ws :: wpost)
        = recurseNodes cw vis (ws.nodes ++ ws.floatingNodes) := by
  intro wpre
  induction wpre with
  | nil =>
      intro wpost h hty hname
      rw [List.nil_append, recurseNodes_cons]
      rw [if_pos (by simp [hty]), if_pos (by simp [hname])]
      rw [mergeNode_nodes]
  | cons x rest ih =>
      intro wpost h hty hname
      have hx := h x (by simp)
      rw [List.cons_append, recurseNodes_cons]
      rw [if_pos (by simp [hx.1]), if_neg (by simp [hx.2])]
      exact ih wpost (fun y hy => h y (by simp [hy])) hty hname

/-- The ids of a forest's subtrees cover appended forests componentwise. -/
theorem subtreeIds_append (a b : List Node) :
    subtreeIds (a ++ b) = subtreeIds a ++ subtreeIds b := by
  induction a with
  | nil => rw [List.nil_append, subtreeIds_nil, List.nil_append]
  | cons n rest ih =>
      rw [List.cons_append, subtreeIds_cons, subtreeIds_cons, ih]
      simp

/-- Every node the spec collector selects lies inside the forest: its id is
among the forest's subtree ids. -/
theorem specVisibleWindows_sub_ids :
    ∀ N l, listTsize l ≤ N → ∀ x ∈ specVisibleWindows l, x.id ∈ subtreeIds l := by
  intro N
  induction N with
  | zero =>
      intro l hle x hx
      cases l with
      | nil =>
          rw [specVisibleWindows_nil] at hx
          simp at hx
      | cons n rest =>
          rw [listTsize_cons] at hle
          omega
  | succ N ih =>
      intro l hle x hx
      cases l with
      | nil =>
          rw [specVisibleWindows_nil] at hx
          simp at hx
      | cons n rest =>
          rw [listTsize_cons] at hle
          rw [specVisibleWindows_cons] at hx
          rw [subtreeIds_cons]
          by_cases hb : ((istype n con || istype n floating)
              && (decide (n.window > 0) || n.x11window != "")) = true
          · rw [if_pos hb] at hx
            rcases List.mem_cons.mp hx with he | hrest
            · subst he
              simp
            · have hm := ih rest (by omega) x hrest
              simp [hm]
          · rw [if_neg hb] at hx
            rcases List.mem_append.mp hx with h1 | h2
            · rcases List.mem_append.mp h1 with hns | hfs
              · have hm := ih n.nodes (by omega) x hns
                simp [hm]
              · have hm := ih n.floatingNodes (by omega) x hfs
                simp [hm]
            · have hm := ih rest (by omega) x h2
              simp [hm]

/-- C1 (amended): for every tree whose root children hold exactly one node
with a non-empty active-workspace name (the output `o`, preceded by `pre` and
followed by `post`, both carrying none), whose output's children are
workspace nodes of which exactly `ws` bears the active name (the preceding
siblings `wpre` are non-matching workspaces; the following siblings `wpost`
are never reached), and whose active workspace nests no further
workspace-kind node, the Visibility Resolver produces, observed as the spec's
(id, focused) pairs, exactly the *maximal* window-bearing nodes under that
workspace — those not nested inside another window-bearing node — in
depth-first, children-before-floating-children, left-to-right order
(`specVisibleWindows`), and every listed node's id lies in that workspace's
subtree, so no node of any other workspace or output appears. -/
theorem C1_amended_exact_windows (t o ws : Node) (pre post wpre wpost : List Node)
    (ht : t.nodes = pre ++ o :: post)
    (hpre : ∀ x ∈ pre, x.currentWorkspace = "")
    (_hpost : ∀ x ∈ post, x.currentWorkspace = "")
    (ho : o.currentWorkspace ≠ "")
    (hons : o.nodes = wpre ++ ws :: wpost)
    (hwpre : ∀ x ∈ wpre, istype x workspace = true ∧ x.name ≠ o.currentWorkspace)
    (hwsty : istype ws workspace = true)
    (hwsname : ws.name = o.currentWorkspace)
    (hnows : noWsForest (ws.nodes ++ ws.floatingNodes) = true) :
    (processJSON t).map (fun r => r.2.map observe)
      = Except.ok ((specVisibleWindows (ws.nodes ++ ws.floatingNodes)).map observe)
    ∧ ∀ x ∈ specVisibleWindows (ws.nodes ++ ws.floatingNodes), x.id ∈ subtreeIds [ws] := by
  constructor
  · have hp : processJSON t = Except.ok (o.currentWorkspace,
        recurseNodes o.currentWorkspace [] o.nodes) := by
      unfold processJSON
      rw [if_neg (by simp [ht])]
      rw [ht, processLoop_append_empty pre _ hpre, processLoop_cons_hit o post ho]
    rw [hp]
    show Except.ok ((recurseNodes o.currentWorkspace [] o.nodes).map observe)
      = Except.ok ((specVisibleWindows (ws.nodes ++ ws.floatingNodes)).map observe)
    rw [hons, recurseNodes_ws_branch o.currentWorkspace [] ws wpre wpost hwpre hwsty hwsname]
    rw [recurseNodes_spec o.currentWorkspace (listTsize (ws.nodes ++ ws.floatingNodes)) _ []
      le_rfl hnows]
    rw [List.nil_append, List.map_map]
    have hfun : observe ∘ mergeNode = observe := funext fun x => rfl
    rw [hfun]
  · intro x hx
    have hm := specVisibleWindows_sub_ids (listTsize (ws.nodes ++ ws.floatingNodes))
      (ws.nodes ++ ws.floatingNodes) le_rfl x hx
    rw [subtreeIds_append] at hm
    rw [subtreeIds_cons, subtreeIds_nil]
    simp only [List.append_nil]
    simp [List.mem_append] at hm ⊢
    tauto

/-- C1 counterexample tree: one output with active workspace "1"; the
workspace holds a window-bearing con (id 10) that nests another
window-bearing con (id 20). -/
def cexWs : Node :=
  ⟨3, "workspace", "1",
    [⟨10, "con", "A", [⟨20, "con", "B", [], [], false, 2, "", ""⟩], [], false, 1, "", ""⟩],
    [], false, 0, "", ""⟩

/-- The single output of the counterexample tree. -/
def cexOut : Node :=
  ⟨2, "output", "eDP-1", [cexWs], [], false, 0, "", "1"⟩

/-- The counterexample tree around `cexWs`. -/
def cexTree : Node :=
  ⟨1, "root", "root", [cexOut], [], false, 0, "", ""⟩

/-- Counterexample to C1 as stated: `cexTree` has exactly one output, whose
non-empty active-workspace name "1" matches its child workspace `cexWs`, and
node 20 is a window-bearing node under that workspace (the window-bearing
nodes under it, in the claim's depth-first order, have ids [10, 20] as
`specAllWindows` lists), yet the resolver's list holds only id 10: the list
does not contain exactly the window-bearing nodes under the workspace. -/
theorem C1_counterexample :
    istype cexTree root = true
    ∧ cexTree.nodes = [cexOut]
    ∧ istype cexOut output = true ∧ cexOut.currentWorkspace = "1"
    ∧ cexOut.nodes = [cexWs]
    ∧ istype cexWs workspace = true ∧ cexWs.name = "1"
    ∧ (resolverRun cexTree).map (List.map Node.id) = Except.ok [10]
    ∧ (specAllWindows (cexWs.nodes ++ cexWs.floatingNodes)).map Node.id = [10, 20] := by
  refine ⟨by decide, rfl, by decide, rfl, rfl, by decide, rfl, ?_, ?_⟩
  · have h1 : processJSON cexTree = Except.ok ("1", recurseNodes "1" [] [cexWs]) := by
      unfold processJSON
      rw [if_neg (by decide)]
      rw [show cexTree.nodes = [cexOut] from rfl, processLoop_cons_hit cexOut [] (by decide)]
      rfl
    have h2 : recurseNodes "1" [] [cexWs]
        = [mergeNode ⟨10, "con", "A", [⟨20, "con", "B", [], [], false, 2, "", ""⟩], [],
            false, 1, "", ""⟩] := by
      rw [recurseNodes_cons]
      rw [if_pos (by decide), if_pos (by decide)]
      rw [show (mergeNode cexWs).nodes
          = [⟨10, "con", "A", [⟨20, "con", "B", [], [], false, 2, "", ""⟩], [],
              false, 1, "", ""⟩] from rfl]
      rw [recurseNodes_cons]
      rw [if_neg (by decide), if_pos (by decide)]
      rw [recurseNodes_nil]
      rfl
    unfold resolverRun
    rw [h1, h2]
    rfl
  · rw [show cexWs.nodes ++ cexWs.floatingNodes
        = [⟨10, "con", "A", [⟨20, "con", "B", [], [], false, 2, "", ""⟩], [],
            false, 1, "", ""⟩] from rfl]
    rw [specAllWindows_cons, if_pos (by decide)]
    rw [show (⟨10, "con", "A", [⟨20, "con", "B", [], [], false, 2, "", ""⟩], [],
        false, 1, "", ""⟩ : Node).nodes
        = [⟨20, "con", "B", [], [], false, 2, "", ""⟩] from rfl]
    rw [specAllWindows_cons, if_pos (by decide)]
    rw [specAllWindows_nil]
    rfl

/-- Scenario-A workspace for the C1 witness: three window-bearing cons with
ids 10, 11 (focused), 12. -/
def wWs : Node :=
  ⟨3, "workspace", "1",
    [⟨10, "con", "a", [], [], false, 1, "", ""⟩,
      ⟨11, "con", "b", [], [], true, 2, "", ""⟩,
      ⟨12, "con", "c", [], [], false, 3, "", ""⟩],
    [], false, 0, "", ""⟩

/-- Scenario-A output for the C1 witness. -/
def wOut : Node :=
  ⟨2, "output", "eDP-1", [wWs], [], false, 0, "", "1"⟩

/-- Scenario-A tree for the C1 witness. -/
def wTree : Node :=
  ⟨1, "root", "root", [wOut], [], false, 0, "", ""⟩

/-- Closed witness for the amended C1 at Scenario A: the resolver's observed
list is exactly [(10, false), (11, true), (12, false)]. -/
theorem C1_witness :
    (processJSON wTree).map (fun r => r.2.map observe)
      = Except.ok [((10 : Int), false), ((11 : Int), true), ((12 : Int), false)] := by
  have h := C1_amended_exact_windows wTree wOut wWs [] [] [] [] rfl (by simp) (by simp)
    (by decide) rfl (by simp) (by decide) (by decide)
    (by rw [show wWs.nodes ++ wWs.floatingNodes
          = [⟨10, "con", "a", [], [], false, 1, "", ""⟩,
              ⟨11, "con", "b", [], [], true, 2, "", ""⟩,
              ⟨12, "con", "c", [], [], false, 3, "", ""⟩] from rfl]
        rw [noWsForest_cons, noWsForest_cons, noWsForest_cons, noWsForest_nil]
        decide)
  rw [h.1]
  rw [show wWs.nodes ++ wWs.floatingNodes
      = [⟨10, "con", "a", [], [], false, 1, "", ""⟩,
          ⟨11, "con", "b", [], [], true, 2, "", ""⟩,
          ⟨12, "con", "c", [], [], false, 3, "", ""⟩] from rfl]
  rw [specVisibleWindows_cons, if_pos (by decide)]
  rw [specVisibleWindows_cons, if_pos (by decide)]
  rw [specVisibleWindows_cons, if_pos (by decide)]
  rw [specVisibleWindows_nil]
  rfl

end Swaycycle
